import Mathlib

/-!
Verification of the `netusage` repository (src/netusage.py).

The development shallowly embeds the pure core of the program:

* the sample store is modelled as a `List Sample`, already restricted to one
  interface and sorted ascending by timestamp (the SQL query
  `SELECT ... WHERE iface = ? AND ts BETWEEN ? AND ? ORDER BY ts ASC` on the
  append-only store returns exactly an order-preserving range filter of such a
  list; ties keep insertion order, matching the spec's retrieval-order rule);
* Python integers are `Int` (arbitrary precision, no wraparound);
* external collaborators (the OS clock, the counter reader, `zoneinfo`,
  `strptime`/`fromisoformat`) are abstracted into an explicit `Env` of
  functions, so that the control flow of the Python code itself — which is
  what the claims are about — is embedded faithfully.
-/

namespace NetUsage

/-- One row of the `samples` table: `(ts, rx_bytes, tx_bytes)` for a fixed
interface (`iface` is dropped because every queried list is already filtered
to a single interface, as in `compute_usage_between`). -/
structure Sample where
  ts : Int
  rx : Int
  tx : Int
deriving Repr, DecidableEq

instance : Inhabited Sample := ⟨⟨0, 0, 0⟩⟩

/-- The SQL predicate `ts BETWEEN s AND e` (inclusive on both ends, as in
SQLite). -/
def inRange (s e : Int) (x : Sample) : Bool :=
  decide (s ≤ x.ts) && decide (x.ts ≤ e)

/-- The query `SELECT ts, rx_bytes, tx_bytes FROM samples WHERE iface = ?
AND ts BETWEEN ? AND ? ORDER BY ts ASC` on a store that is kept in ascending
timestamp order: an order-preserving filter. -/
def filterRange (store : List Sample) (s e : Int) : List Sample :=
  store.filter (inRange s e)

/-- The loop of `compute_usage_between` (netusage.py lines 160-172): walk the
remaining rows keeping the previous row's counters and the running totals,
clamping each negative delta to 0. -/
def accrueLoop (prevRx prevTx totalRx totalTx : Int) : List Sample → Int × Int
  | [] => (totalRx, totalTx)
  | r :: rest =>
      let dr := r.rx - prevRx
      let dtv := r.tx - prevTx
      let dr := if dr < 0 then 0 else dr
      let dtv := if dtv < 0 then 0 else dtv
      accrueLoop r.rx r.tx (totalRx + dr) (totalTx + dtv) rest

/-- The accrual computation of `compute_usage_between` on the fetched rows
(netusage.py lines 158-173): fewer than 2 rows give `(0, 0)`, otherwise the
clamped consecutive deltas are summed starting from `rows[0]`. -/
def accrue : List Sample → Int × Int
  | [] => (0, 0)
  | [_] => (0, 0)
  | r0 :: rest => accrueLoop r0.rx r0.tx 0 0 rest

/-- Model of `compute_usage_between(start_ts, end_ts, iface)` (netusage.py lines
147-173): fetch the rows in `[s, e]` and accrue them. -/
def compute_usage_between (store : List Sample) (s e : Int) : Int × Int :=
  accrue (filterRange store s e)

/-- Model of the loop of `hourly_buckets_for_day` over the 24 buckets (netusage.py lines
199-205), parameterised by the day bounds `(start, endT)` it receives from
`day_bounds`: bucket `h` is `[start + h*3600, min(start + h*3600 + 3600,
endT)]` and the accrual engine runs once per bucket. -/
def hourly_buckets (start endT : Int) (store : List Sample) :
    List (Nat × Int × Int) :=
  (List.range 24).map fun (h : Nat) =>
    let s := start + (h : Int) * 3600
    let e := min (s + 3600) endT
    let u := compute_usage_between store s e
    (h, u.1, u.2)

/-! ### Consecutive pairs and the clamped-delta sum

`pairs` lists the consecutive pairs the loop of `compute_usage_between`
walks; `accrue_eq` characterises the fold as the per-channel sums of clamped
deltas over those pairs. -/

/-- Clamp a delta as the reset policy does: negative becomes 0. -/
def clamp (d : Int) : Int := if d < 0 then 0 else d

/-- The rx delta of a consecutive pair, clamped. -/
def clampRx (p : Sample × Sample) : Int := clamp (p.2.rx - p.1.rx)

/-- The tx delta of a consecutive pair, clamped. -/
def clampTx (p : Sample × Sample) : Int := clamp (p.2.tx - p.1.tx)

/-- The list of consecutive pairs of a list. -/
def pairs : List Sample → List (Sample × Sample)
  | a :: b :: rest => (a, b) :: pairs (b :: rest)
  | _ => []

@[simp] theorem pairs_nil : pairs [] = [] := rfl

@[simp] theorem pairs_single (a : Sample) : pairs [a] = [] := rfl

@[simp] theorem pairs_cons_cons (a b : Sample) (rest : List Sample) :
    pairs (a :: b :: rest) = (a, b) :: pairs (b :: rest) := rfl

theorem clamp_nonneg (d : Int) : 0 ≤ clamp d := by
  unfold clamp; split <;> omega

theorem accrueLoop_eq (l : List Sample) :
    ∀ (p : Sample) (tr tt : Int),
      accrueLoop p.rx p.tx tr tt l =
        (tr + ((pairs (p :: l)).map clampRx).sum,
         tt + ((pairs (p :: l)).map clampTx).sum) := by
  induction l with
  | nil => intro p tr tt; simp [accrueLoop]
  | cons r rest ih =>
      intro p tr tt
      have h := ih r (tr + clamp (r.rx - p.rx)) (tt + clamp (r.tx - p.tx))
      simp only [accrueLoop, clamp] at h ⊢
      rw [h]
      simp [clampRx, clampTx, clamp]
      constructor <;> ring

theorem accrue_eq (rows : List Sample) :
    accrue rows =
      (((pairs rows).map clampRx).sum, ((pairs rows).map clampTx).sum) := by
  match rows with
  | [] => simp [accrue]
  | [a] => simp [accrue]
  | a :: b :: rest =>
      show accrueLoop a.rx a.tx 0 0 (b :: rest) = _
      rw [accrueLoop_eq (b :: rest) a 0 0]
      simp

theorem mem_pairs : ∀ (l : List Sample) (p : Sample × Sample),
    p ∈ pairs l → p.1 ∈ l ∧ p.2 ∈ l
  | [], p, h => by simp [pairs] at h
  | [a], p, h => by simp [pairs] at h
  | a :: b :: t, p, h => by
      rw [pairs_cons_cons] at h
      rcases List.mem_cons.mp h with h1 | h2
      · subst h1; constructor <;> simp
      · have hm := mem_pairs (b :: t) p h2
        exact ⟨List.mem_cons_of_mem _ hm.1, List.mem_cons_of_mem _ hm.2⟩

theorem pairs_filter : ∀ (l : List Sample),
    List.Pairwise (fun x y : Sample => x.ts ≤ y.ts) l →
    ∀ (s e : Int),
      pairs (l.filter (inRange s e)) =
        (pairs l).filter fun p => inRange s e p.1 && inRange s e p.2
  | [], _, s, e => by simp
  | [a], _, s, e => by
      cases hin : inRange s e a <;> simp [List.filter_cons, hin, pairs]
  | a :: b :: t, hsort, s, e => by
      have hsort' : List.Pairwise (fun x y : Sample => x.ts ≤ y.ts) (b :: t) :=
        (List.pairwise_cons.mp hsort).2
      have ha : ∀ x ∈ b :: t, a.ts ≤ x.ts := (List.pairwise_cons.mp hsort).1
      have IH := pairs_filter (b :: t) hsort' s e
      cases hinA : inRange s e a with
      | false =>
          have hfa : (a :: b :: t).filter (inRange s e) =
              (b :: t).filter (inRange s e) := by
            simp [List.filter_cons, hinA]
          rw [hfa, IH, pairs_cons_cons, List.filter_cons]
          simp [hinA]
      | true =>
          cases hinB : inRange s e b with
          | true =>
              have hfb : (b :: t).filter (inRange s e) =
                  b :: t.filter (inRange s e) := by
                simp [List.filter_cons, hinB]
              have hfa : (a :: b :: t).filter (inRange s e) =
                  a :: b :: t.filter (inRange s e) := by
                simp [List.filter_cons, hinA, hinB]
              rw [hfa, pairs_cons_cons, ← hfb, IH, pairs_cons_cons,
                List.filter_cons]
              simp [hinA, hinB]
          | false =>
              have haA : s ≤ a.ts ∧ a.ts ≤ e := by
                simpa [inRange] using hinA
              have hbgt : e < b.ts := by
                have hab : a.ts ≤ b.ts := ha b (by simp)
                have := hinB
                simp [inRange] at this
                omega
              have hall : ∀ x ∈ b :: t, inRange s e x = false := by
                intro x hx
                have hbx : b.ts ≤ x.ts := by
                  rcases List.mem_cons.mp hx with h1 | h2
                  · exact h1 ▸ le_refl _
                  · exact (List.pairwise_cons.mp hsort').1 x h2
                simp [inRange]
                omega
              have hfb : (b :: t).filter (inRange s e) = [] := by
                rw [List.filter_eq_nil_iff]
                intro x hx
                simp [hall x hx]
              have hfa : (a :: b :: t).filter (inRange s e) = [a] := by
                simp [List.filter_cons, hinA, hfb]
              rw [hfa, pairs_single, pairs_cons_cons, List.filter_cons]
              have hQ : (inRange s e a && inRange s e b) = false := by
                simp [hinB]
              simp only [hQ, if_false, Bool.false_eq_true]
              rw [eq_comm, List.filter_eq_nil_iff]
              intro p hp
              have hm := (mem_pairs (b :: t) p hp).1
              simp [hall p.1 hm]

theorem filterRange_filterRange (store : List Sample) (s1 e1 s2 e2 : Int)
    (hs : s2 ≤ s1) (he : e1 ≤ e2) :
    filterRange (filterRange store s2 e2) s1 e1 = filterRange store s1 e1 := by
  unfold filterRange
  rw [List.filter_filter]
  apply List.filter_congr
  intro x hx
  cases hq : inRange s1 e1 x with
  | false => simp [hq]
  | true =>
      have h2 : inRange s2 e2 x = true := by
        simp [inRange] at hq ⊢
        omega
      simp [hq, h2]

theorem sum_filter_le {α : Type} (f : α → Int) (q : α → Bool) :
    ∀ (l : List α), (∀ x ∈ l, 0 ≤ f x) →
      ((l.filter q).map f).sum ≤ (l.map f).sum := by
  intro l
  induction l with
  | nil => intro _; simp
  | cons a l ih =>
      intro h
      have h0 : 0 ≤ f a := h a (by simp)
      have ih' := ih fun x hx => h x (List.mem_cons_of_mem _ hx)
      rw [List.filter_cons]
      cases hq : q a with
      | true => simpa using by linarith
      | false =>
          simp only [Bool.false_eq_true, if_false, List.map_cons, List.sum_cons]
          linarith

theorem sum_clampRx_nonneg (ps : List (Sample × Sample)) :
    0 ≤ (ps.map clampRx).sum := by
  apply List.sum_nonneg
  intro x hx
  rcases List.mem_map.mp hx with ⟨p, _, rfl⟩
  exact clamp_nonneg _

theorem sum_clampTx_nonneg (ps : List (Sample × Sample)) :
    0 ≤ (ps.map clampTx).sum := by
  apply List.sum_nonneg
  intro x hx
  rcases List.mem_map.mp hx with ⟨p, _, rfl⟩
  exact clamp_nonneg _

/-- Telescoping sum: when the projected counter is non-decreasing along the
rows, no delta is clamped and the clamped-delta sum collapses to
last minus first. -/
theorem pairsum_telescope (f : Sample → Int) :
    ∀ (l : List Sample) (a : Sample) (h : l ≠ []),
      List.Pairwise (fun x y : Sample => f x ≤ f y) (a :: l) →
      ((pairs (a :: l)).map fun p => clamp (f p.2 - f p.1)).sum =
        f (l.getLast h) - f a := by
  intro l
  induction l with
  | nil => intro a h; exact absurd rfl h
  | cons r t ih =>
      intro a h hch
      have h1 : f a ≤ f r := (List.pairwise_cons.mp hch).1 r (by simp)
      have h2 : List.Pairwise (fun x y : Sample => f x ≤ f y) (r :: t) :=
        (List.pairwise_cons.mp hch).2
      cases t with
      | nil =>
          simp [pairs, clamp, List.getLast]
          omega
      | cons x xs =>
          have hne : x :: xs ≠ [] := by simp
          have hrec := ih r hne h2
          rw [pairs_cons_cons, List.map_cons, List.sum_cons, hrec,
            List.getLast_cons hne]
          simp [clamp]
          omega

/-- Claim C1: negative per-pair deltas are clamped to 0 independently per
channel (the totals are exactly the per-channel sums of clamped consecutive
deltas, so a reset pair contributes 0 and later pairs contribute from the
post-reset baseline), and on the samples
`(0, rx=1000), (60, rx=1500), (120, rx=400), (180, rx=900)` over a window
covering all four the total rx is `(1500-1000) + 0 + (900-400) = 1000`
(tx chosen as `0, 10, 5, 7` to exhibit the independent tx clamping,
`10 + 0 + 2 = 12`). -/
theorem reset_clamp_per_pair_and_scenario :
    (∀ rows : List Sample,
        accrue rows =
          (((pairs rows).map clampRx).sum, ((pairs rows).map clampTx).sum)) ∧
    compute_usage_between
      [⟨0, 1000, 0⟩, ⟨60, 1500, 10⟩, ⟨120, 400, 5⟩, ⟨180, 900, 7⟩] 0 180 =
      (1000, 12) := by
  refine ⟨accrue_eq, ?_⟩
  decide

/-- Claim C2: on at least two samples whose rx and tx counters are both
non-decreasing, the accrued totals are `last.rx - first.rx` and
`last.tx - first.tx`. -/
theorem nondecreasing_accrue_eq_last_sub_first (a : Sample) (rest : List Sample)
    (hne : rest ≠ [])
    (hrx : List.Pairwise (fun x y : Sample => x.rx ≤ y.rx) (a :: rest))
    (htx : List.Pairwise (fun x y : Sample => x.tx ≤ y.tx) (a :: rest)) :
    accrue (a :: rest) =
      ((rest.getLast hne).rx - a.rx, (rest.getLast hne).tx - a.tx) := by
  rw [accrue_eq, Prod.mk.injEq]
  exact ⟨pairsum_telescope (fun s => s.rx) rest a hne hrx,
    pairsum_telescope (fun s => s.tx) rest a hne htx⟩

/-- Witness for C2 at the samples `(0,1,1), (1,2,3)`. -/
theorem nondecreasing_accrue_eq_last_sub_first_witness :
    accrue [⟨0, 1, 1⟩, ⟨1, 2, 3⟩] = (1, 2) := by
  have h := nondecreasing_accrue_eq_last_sub_first ⟨0, 1, 1⟩ [⟨1, 2, 3⟩]
    (by decide) (by decide) (by decide)
  simpa using h

/-- Claim C5: with zero or one sample in the window the engine returns
`(0, 0)`. -/
theorem few_samples_zero (store : List Sample) (s e : Int)
    (h : (filterRange store s e).length ≤ 1) :
    compute_usage_between store s e = (0, 0) := by
  unfold compute_usage_between
  rcases hr : filterRange store s e with _ | ⟨a, _ | ⟨b, t⟩⟩
  · rfl
  · rfl
  · rw [hr] at h; simp at h

/-- Witness for C5 on the empty store. -/
theorem few_samples_zero_witness :
    (filterRange [] 0 0).length ≤ 1 ∧ compute_usage_between [] 0 0 = (0, 0) :=
  ⟨by decide, few_samples_zero [] 0 0 (by decide)⟩

/-- Claim C4: for a ts-sorted store and nested windows `[s1, e1] ⊆ [s2, e2]`,
if no counter reset occurs among the samples added by growing the window
(every consecutive pair of the grown window's rows that is not wholly inside
the small window has non-negative deltas), the totals over the grown window
dominate the totals over the small one componentwise, and all totals are
non-negative.  (The reset hypothesis is stated as the claim states it; the
clamping actually makes the monotonicity hold even without it.) -/
theorem usage_monotone (store : List Sample) (s1 e1 s2 e2 : Int)
    (hsort : List.Pairwise (fun x y : Sample => x.ts ≤ y.ts) store)
    (hs : s2 ≤ s1) (he : e1 ≤ e2)
    (hnores : ((pairs (filterRange store s2 e2)).all fun p =>
        (inRange s1 e1 p.1 && inRange s1 e1 p.2) ||
        (decide (0 ≤ p.2.rx - p.1.rx) && decide (0 ≤ p.2.tx - p.1.tx)))
      = true) :
    (compute_usage_between store s1 e1).1 ≤ (compute_usage_between store s2 e2).1 ∧
    (compute_usage_between store s1 e1).2 ≤ (compute_usage_between store s2 e2).2 ∧
    0 ≤ (compute_usage_between store s1 e1).1 ∧
    0 ≤ (compute_usage_between store s1 e1).2 ∧
    0 ≤ (compute_usage_between store s2 e2).1 ∧
    0 ≤ (compute_usage_between store s2 e2).2 := by
  have hL1 : filterRange store s1 e1 = filterRange (filterRange store s2 e2) s1 e1 :=
    (filterRange_filterRange store s1 e1 s2 e2 hs he).symm
  have hsort2 : List.Pairwise (fun x y : Sample => x.ts ≤ y.ts)
      (filterRange store s2 e2) :=
    hsort.sublist (List.filter_sublist store)
  have hp : pairs (filterRange store s1 e1) =
      (pairs (filterRange store s2 e2)).filter
        fun p => inRange s1 e1 p.1 && inRange s1 e1 p.2 := by
    rw [hL1]
    exact pairs_filter (filterRange store s2 e2) hsort2 s1 e1
  unfold compute_usage_between
  rw [accrue_eq, accrue_eq, hp]
  refine ⟨?_, ?_, ?_, ?_, ?_, ?_⟩
  · exact sum_filter_le clampRx _ _ fun p _ => clamp_nonneg _
  · exact sum_filter_le clampTx _ _ fun p _ => clamp_nonneg _
  · exact sum_clampRx_nonneg _
  · exact sum_clampTx_nonneg _
  · exact sum_clampRx_nonneg _
  · exact sum_clampTx_nonneg _

/-- Witness for C4: store `(0,10,10), (10,20,20)`, small window `[0,5]`
inside grown window `[0,10]`. -/
theorem usage_monotone_witness :
    ((0 : Int) ≤ 0 ∧ (5 : Int) ≤ 10) ∧
    (compute_usage_between [⟨0, 10, 10⟩, ⟨10, 20, 20⟩] 0 5).1 ≤
      (compute_usage_between [⟨0, 10, 10⟩, ⟨10, 20, 20⟩] 0 10).1 ∧
    (compute_usage_between [⟨0, 10, 10⟩, ⟨10, 20, 20⟩] 0 5).2 ≤
      (compute_usage_between [⟨0, 10, 10⟩, ⟨10, 20, 20⟩] 0 10).2 ∧
    0 ≤ (compute_usage_between [⟨0, 10, 10⟩, ⟨10, 20, 20⟩] 0 5).1 ∧
    0 ≤ (compute_usage_between [⟨0, 10, 10⟩, ⟨10, 20, 20⟩] 0 5).2 ∧
    0 ≤ (compute_usage_between [⟨0, 10, 10⟩, ⟨10, 20, 20⟩] 0 10).1 ∧
    0 ≤ (compute_usage_between [⟨0, 10, 10⟩, ⟨10, 20, 20⟩] 0 10).2 :=
  ⟨⟨by decide, by decide⟩,
    usage_monotone [⟨0, 10, 10⟩, ⟨10, 20, 20⟩] 0 5 0 10
      (by decide) (by decide) (by decide) (by decide)⟩

/-! ### Hourly buckets versus the full-day window (C3) -/

/-- Membership of a sample in hour bucket `h` of the day `[start, endT]`,
exactly the range the bucket loop passes to `compute_usage_between`. -/
def inBucket (start endT : Int) (h : Nat) (x : Sample) : Bool :=
  inRange (start + (h : Int) * 3600) (min (start + (h : Int) * 3600 + 3600) endT) x

/-- Counterexample to Claim C3 as stated: samples at `ts = 100` and
`ts = 4000` straddle the bucket edge at 3600 with no sample on any bucket
edge, so the cross-edge delta is counted by the full-day accrual but by no
hourly bucket: the bucket sum is 0 while the day total is 50.  The also
recorded same-timestamp pair sitting exactly on the edge (`ts = 3600` twice,
which the spec explicitly allows) is double-counted instead — bucket sum 20
versus day total 10 — so bucket sums can come out on either side of the day
total. -/
theorem hourly_sum_ne_day_total_cex :
    ((hourly_buckets 0 86400 [⟨100, 0, 0⟩, ⟨4000, 50, 60⟩]).map
        fun b => b.2.1).sum = 0 ∧
    (compute_usage_between [⟨100, 0, 0⟩, ⟨4000, 50, 60⟩] 0 86400).1 = 50 ∧
    ((hourly_buckets 0 86400 [⟨100, 0, 0⟩, ⟨4000, 50, 60⟩]).map
        fun b => b.2.1).sum ≠
      (compute_usage_between [⟨100, 0, 0⟩, ⟨4000, 50, 60⟩] 0 86400).1 ∧
    (∀ x ∈ [(⟨100, 0, 0⟩ : Sample), ⟨4000, 50, 60⟩], ∀ h : Nat, h ≤ 24 →
      x.ts ≠ 0 + (h : Int) * 3600) ∧
    ((hourly_buckets 0 86400 [⟨3600, 0, 0⟩, ⟨3600, 10, 0⟩]).map
        fun b => b.2.1).sum = 20 ∧
    (compute_usage_between [⟨3600, 0, 0⟩, ⟨3600, 10, 0⟩] 0 86400).1 = 10 := by
  decide

theorem list_range_map_sum {M : Type} [AddCommMonoid M] (n : Nat) (f : Nat → M) :
    ((List.range n).map f).sum = ∑ h ∈ Finset.range n, f h := by
  induction n with
  | zero => simp
  | succ n ih => rw [List.range_succ]; simp [Finset.sum_range_succ, ih]

/-- Summing the bucket-filtered sums over all buckets recovers the total sum
when every element lies in exactly one bucket. -/
theorem sum_filter_partition {α M : Type} [AddCommMonoid M] (n : Nat)
    (Q : Nat → α → Bool) (f : α → M) :
    ∀ ps : List α,
      (∀ p ∈ ps, ((Finset.range n).filter fun h => Q h p = true).card = 1) →
      (∑ h ∈ Finset.range n, ((ps.filter (Q h)).map f).sum) = (ps.map f).sum := by
  intro ps
  induction ps with
  | nil => intro _; simp
  | cons p ps ih =>
      intro h
      have hcard := h p (by simp)
      have hrest := fun q hq => h q (List.mem_cons_of_mem _ hq)
      have hsplit : ∀ hh : Nat, (((p :: ps).filter (Q hh)).map f).sum =
          (if Q hh p then f p else 0) + ((ps.filter (Q hh)).map f).sum := by
        intro hh
        rw [List.filter_cons]
        cases hq : Q hh p <;> simp [hq]
      calc (∑ hh ∈ Finset.range n, (((p :: ps).filter (Q hh)).map f).sum)
          = ∑ hh ∈ Finset.range n,
              ((if Q hh p then f p else 0) + ((ps.filter (Q hh)).map f).sum) :=
            Finset.sum_congr rfl fun hh _ => hsplit hh
        _ = (∑ hh ∈ Finset.range n, if Q hh p then f p else 0) +
              ∑ hh ∈ Finset.range n, ((ps.filter (Q hh)).map f).sum :=
            Finset.sum_add_distrib
        _ = f p + (ps.map f).sum := by
            rw [ih hrest]
            congr 1
            rw [← Finset.sum_filter, Finset.sum_const, hcard, one_nsmul]
        _ = ((p :: ps).map f).sum := by simp

/-- Claim C3 (amended): the sum of the 24 hourly bucket totals equals the
full-day total provided every consecutive pair of the day's rows lies within
exactly one hour bucket.  The proviso is needed on both sides: a pair
straddling a bucket edge with no sample exactly on the edge lies in no
bucket, so its delta is counted by the day window but by no bucket (bucket
sum too small), while a same-timestamp pair sitting exactly on a bucket edge
lies in both adjacent buckets — `BETWEEN` is inclusive at both ends — and is
double-counted (bucket sum too large); see the counterexample for both.  A
single sample exactly on an edge between distinct-timestamp neighbours
belongs to both adjacent buckets and splits the chain cleanly, so sampled
edges keep the equality. -/
theorem hourly_sum_eq_day_total (store : List Sample) (start endT : Int)
    (hsort : List.Pairwise (fun x y : Sample => x.ts ≤ y.ts) store)
    (hcov : ∀ p ∈ pairs (filterRange store start endT),
        ((Finset.range 24).filter fun h =>
          (inBucket start endT h p.1 && inBucket start endT h p.2) = true).card
          = 1) :
    ((hourly_buckets start endT store).map fun b => b.2.1).sum =
      (compute_usage_between store start endT).1 ∧
    ((hourly_buckets start endT store).map fun b => b.2.2).sum =
      (compute_usage_between store start endT).2 := by
  have hsortLe : List.Pairwise (fun x y : Sample => x.ts ≤ y.ts)
      (filterRange store start endT) :=
    hsort.sublist (List.filter_sublist store)
  -- each bucket's query result is the bucket-filter of the day's rows
  have hbucket : ∀ h : Nat,
      filterRange store (start + (h : Int) * 3600)
          (min (start + (h : Int) * 3600 + 3600) endT) =
        (filterRange store start endT).filter (inBucket start endT h) := by
    intro h
    have h1 : start ≤ start + (h : Int) * 3600 := by omega
    have h2 : min (start + (h : Int) * 3600 + 3600) endT ≤ endT :=
      min_le_right _ _
    exact (filterRange_filterRange store _ _ start endT h1 h2).symm
  have hpairs : ∀ h : Nat,
      pairs ((filterRange store start endT).filter (inBucket start endT h)) =
        (pairs (filterRange store start endT)).filter
          fun p => inBucket start endT h p.1 && inBucket start endT h p.2 :=
    fun h => pairs_filter (filterRange store start endT) hsortLe _ _
  -- every consecutive pair of the day's rows lies in exactly one bucket
  have hcard := hcov
  -- reduce each side to sums of clamped deltas over the day's pairs
  have hval : ∀ (g : Sample × Sample → Int) (h : Nat),
      ((pairs (filterRange store
          (start + (h : Int) * 3600)
          (min (start + (h : Int) * 3600 + 3600) endT))).map g).sum =
      (((pairs (filterRange store start endT)).filter
          fun p => inBucket start endT h p.1 && inBucket start endT h p.2).map
        g).sum := by
    intro g h
    rw [hbucket h, hpairs h]
  constructor
  · rw [hourly_buckets, List.map_map, compute_usage_between, accrue_eq]
    show ((List.range 24).map _).sum = _
    rw [list_range_map_sum]
    calc (∑ h ∈ Finset.range 24,
            (compute_usage_between store (start + (h : Int) * 3600)
              (min (start + (h : Int) * 3600 + 3600) endT)).1)
        = ∑ h ∈ Finset.range 24,
            (((pairs (filterRange store start endT)).filter
                fun p => inBucket start endT h p.1 &&
                  inBucket start endT h p.2).map clampRx).sum := by
          refine Finset.sum_congr rfl fun h _ => ?_
          rw [compute_usage_between, accrue_eq]
          exact hval clampRx h
      _ = ((pairs (filterRange store start endT)).map clampRx).sum :=
          sum_filter_partition 24 _ clampRx _ hcard
  · rw [hourly_buckets, List.map_map, compute_usage_between, accrue_eq]
    show ((List.range 24).map _).sum = _
    rw [list_range_map_sum]
    calc (∑ h ∈ Finset.range 24,
            (compute_usage_between store (start + (h : Int) * 3600)
              (min (start + (h : Int) * 3600 + 3600) endT)).2)
        = ∑ h ∈ Finset.range 24,
            (((pairs (filterRange store start endT)).filter
                fun p => inBucket start endT h p.1 &&
                  inBucket start endT h p.2).map clampTx).sum := by
          refine Finset.sum_congr rfl fun h _ => ?_
          rw [compute_usage_between, accrue_eq]
          exact hval clampTx h
      _ = ((pairs (filterRange store start endT)).map clampTx).sum :=
          sum_filter_partition 24 _ clampTx _ hcard

/-- Witness for the amended C3: two samples inside hour bucket 0. -/
theorem hourly_sum_eq_day_total_witness :
    ((hourly_buckets 0 86400 [⟨10, 0, 0⟩, ⟨20, 5, 7⟩]).map
        fun b => b.2.1).sum =
      (compute_usage_between [⟨10, 0, 0⟩, ⟨20, 5, 7⟩] 0 86400).1 ∧
    ((hourly_buckets 0 86400 [⟨10, 0, 0⟩, ⟨20, 5, 7⟩]).map
        fun b => b.2.2).sum =
      (compute_usage_between [⟨10, 0, 0⟩, ⟨20, 5, 7⟩] 0 86400).2 :=
  hourly_sum_eq_day_total [⟨10, 0, 0⟩, ⟨20, 5, 7⟩] 0 86400
    (by decide) (by decide)

/-! ### Duration parsing (`parse_duration`, netusage.py lines 216-228)

Python string operations are modelled on `List Char` with ASCII semantics
(`str.isdigit`, `str.isalpha`, `str.lower`, `str.strip` restricted to ASCII,
which covers every duration string the spec talks about). -/

/-- The spec's error taxonomy for the report path (§7); Python raises
`SystemExit` with a message in each case. -/
inductive RErr where
  | ambiguous
  | invalidRange
  | invalidDuration
  | invalidDateTime
deriving Repr, DecidableEq

/-- ASCII model of Python `ch.isdigit()`. -/
def isDigitChar (c : Char) : Bool := decide (48 ≤ c.toNat ∧ c.toNat ≤ 57)

/-- ASCII model of Python `ch.isalpha()`. -/
def isAlphaChar (c : Char) : Bool :=
  decide ((97 ≤ c.toNat ∧ c.toNat ≤ 122) ∨ (65 ≤ c.toNat ∧ c.toNat ≤ 90))

/-- ASCII model of the whitespace removed by Python `str.strip()`. -/
def isSpaceChar (c : Char) : Bool :=
  decide (c.toNat = 32 ∨ c.toNat = 9 ∨ c.toNat = 10 ∨ c.toNat = 13 ∨
    c.toNat = 11 ∨ c.toNat = 12)

/-- ASCII model of Python `str.lower()` on one character. -/
def lowerChar (c : Char) : Char :=
  if 65 ≤ c.toNat ∧ c.toNat ≤ 90 then Char.ofNat (c.toNat + 32) else c

/-- Python `str.strip()`. -/
def stripChars (l : List Char) : List Char :=
  ((l.dropWhile isSpaceChar).reverse.dropWhile isSpaceChar).reverse

/-- Python `str.lower()`. -/
def lowerChars (l : List Char) : List Char := l.map lowerChar

/-- Python `int(...)` on a non-empty string of ASCII digits. -/
def digitsVal (l : List Char) : Nat :=
  l.foldl (fun a c => a * 10 + (c.toNat - 48)) 0

/-- The unit table `{"s":1, "m":60, "h":3600, "d":86400, "w":604800}`
combined with the membership test `unit not in ("s","m","h","d","w")`. -/
def unitMult : List Char → Option Nat
  | ['s'] => some 1
  | ['m'] => some 60
  | ['h'] => some 3600
  | ['d'] => some 86400
  | ['w'] => some 604800
  | _ => none

/-- Model of `parse_duration` (netusage.py lines 216-228): strip and lowercase the
input, collect its digit characters as the number and its alphabetic
characters as the unit, fail on an empty input, an absent number or an
unrecognized unit. -/
def parse_duration (raw : List Char) : Except RErr Int :=
  if (lowerChars (stripChars raw)).isEmpty then .error .invalidDuration
  else if ((lowerChars (stripChars raw)).filter isDigitChar).isEmpty then
    .error .invalidDuration
  else
    match unitMult ((lowerChars (stripChars raw)).filter isAlphaChar) with
    | none => .error .invalidDuration
    | some m =>
        .ok ((digitsVal ((lowerChars (stripChars raw)).filter isDigitChar) * m
          : Nat) : Int)

/-- The `--last` window of `cmd_report` (netusage.py lines 298-301):
`end = now`, `start = end - seconds`. -/
def resolveLast (now : Int) (raw : List Char) : Except RErr (Int × Int) :=
  (parse_duration raw).map fun secs => (now - secs, now)

theorem digit_not_space (c : Char) (h : isDigitChar c = true) :
    isSpaceChar c = false := by
  simp only [isDigitChar, decide_eq_true_eq] at h
  simp only [isSpaceChar, decide_eq_false_iff_not]
  omega

theorem digit_not_alpha (c : Char) (h : isDigitChar c = true) :
    isAlphaChar c = false := by
  simp only [isDigitChar, decide_eq_true_eq] at h
  simp only [isAlphaChar, decide_eq_false_iff_not]
  omega

theorem toNat_ofNat_valid (n : Nat) (h : n.isValidChar) :
    (Char.ofNat n).toNat = n := by
  simp [Char.ofNat, h, Char.toNat, Char.ofNatAux, UInt32.toNat,
    BitVec.toNat_ofNatLt]

theorem lowerChar_toNat (c : Char) :
    (lowerChar c).toNat =
      if 65 ≤ c.toNat ∧ c.toNat ≤ 90 then c.toNat + 32 else c.toNat := by
  unfold lowerChar
  split
  · next h => exact toNat_ofNat_valid _ (Or.inl (by omega))
  · rfl

theorem isDigit_lowerChar (c : Char) :
    isDigitChar (lowerChar c) = isDigitChar c := by
  simp only [isDigitChar, decide_eq_decide, lowerChar_toNat]
  split <;> omega

theorem lowerChar_digit (c : Char) (h : isDigitChar c = true) :
    lowerChar c = c := by
  simp only [isDigitChar, decide_eq_true_eq] at h
  unfold lowerChar
  rw [if_neg (by omega)]

theorem dropWhile_eq_self_of (l : List Char) (q : Char → Bool)
    (h : ∀ c ∈ l, q c = false) : l.dropWhile q = l := by
  cases l with
  | nil => rfl
  | cons a t => rw [List.dropWhile_cons]; simp [h a (by simp)]

theorem stripChars_eq_self (l : List Char)
    (h : ∀ c ∈ l, isSpaceChar c = false) : stripChars l = l := by
  unfold stripChars
  rw [dropWhile_eq_self_of _ _ h,
    dropWhile_eq_self_of _ _ fun c hc => h c (List.mem_reverse.mp hc),
    List.reverse_reverse]

theorem lowerChars_eq_self (l : List Char)
    (h : ∀ c ∈ l, lowerChar c = c) : lowerChars l = l := by
  unfold lowerChars
  induction l with
  | nil => rfl
  | cons a t ih =>
      rw [List.map_cons, h a (by simp),
        ih fun c hc => h c (List.mem_cons_of_mem _ hc)]

theorem parse_duration_ok_aux (ds : List Char) (u : Char) (m : Nat)
    (hne : ds ≠ []) (hd : ∀ c ∈ ds, isDigitChar c = true)
    (hsp : isSpaceChar u = false) (hfix : lowerChar u = u)
    (hnd : isDigitChar u = false) (hal : isAlphaChar u = true)
    (hum : unitMult [u] = some m) :
    parse_duration (ds ++ [u]) = .ok ((digitsVal ds * m : Nat) : Int) := by
  have hstrip : stripChars (ds ++ [u]) = ds ++ [u] := by
    apply stripChars_eq_self
    intro c hc
    rcases List.mem_append.mp hc with h | h
    · exact digit_not_space c (hd c h)
    · simp at h; subst h; exact hsp
  have hlower : lowerChars (ds ++ [u]) = ds ++ [u] := by
    apply lowerChars_eq_self
    intro c hc
    rcases List.mem_append.mp hc with h | h
    · exact lowerChar_digit c (hd c h)
    · simp at h; subst h; exact hfix
  have hfd : (ds ++ [u]).filter isDigitChar = ds := by
    rw [List.filter_append, List.filter_eq_self.mpr hd]
    simp [hnd]
  have hfa : (ds ++ [u]).filter isAlphaChar = [u] := by
    rw [List.filter_append,
      List.filter_eq_nil_iff.mpr fun c hc => by rw [digit_not_alpha c (hd c hc)]; simp]
    simp [hal]
  have hne1 : ((ds ++ [u]).isEmpty) = false := by
    cases ds <;> simp
  have hne2 : (ds.isEmpty) = false := by
    cases ds with
    | nil => exact absurd rfl hne
    | cons a t => simp
  unfold parse_duration
  rw [hstrip, hlower, hfd, hfa, hne1, hne2, hum]
  simp

theorem stripChars_sublist (l : List Char) :
    List.Sublist (stripChars l) l := by
  unfold stripChars
  have h1 : List.Sublist (l.dropWhile isSpaceChar) l := List.dropWhile_sublist _
  have h2 : List.Sublist
      ((l.dropWhile isSpaceChar).reverse.dropWhile isSpaceChar)
      (l.dropWhile isSpaceChar).reverse := List.dropWhile_sublist _
  have h3 := h2.reverse
  rw [List.reverse_reverse] at h3
  exact h3.trans h1

theorem filter_digit_lowerChars_nil (l : List Char)
    (h : l.filter isDigitChar = []) :
    (lowerChars l).filter isDigitChar = [] := by
  rw [List.filter_eq_nil_iff] at h ⊢
  intro c hc
  rcases List.mem_map.mp hc with ⟨c0, hc0, rfl⟩
  rw [isDigit_lowerChar]
  exact h c0 hc0

theorem parse_duration_fails_aux (raw : List Char)
    (h : raw.filter isDigitChar = [] ∨
      unitMult ((lowerChars (stripChars raw)).filter isAlphaChar) = none) :
    parse_duration raw = .error .invalidDuration := by
  unfold parse_duration
  cases h1 : (lowerChars (stripChars raw)).isEmpty with
  | true => simp [h1]
  | false =>
      rcases h with hdig | hunit
      · have hs : (stripChars raw).filter isDigitChar = [] :=
          List.sublist_nil.mp (hdig ▸ (stripChars_sublist raw).filter isDigitChar)
        have hl : (lowerChars (stripChars raw)).filter isDigitChar = [] :=
          filter_digit_lowerChars_nil _ hs
        simp [h1, hl]
      · cases h2 : ((lowerChars (stripChars raw)).filter isDigitChar).isEmpty with
        | true => simp [h1, h2]
        | false => simp [h1, h2, hunit]

theorem parse_duration_err (raw : List Char) (e : RErr)
    (h : parse_duration raw = .error e) : e = .invalidDuration := by
  unfold parse_duration at h
  split at h
  · exact (Except.error.injEq _ _ ▸ h).symm
  · split at h
    · exact (Except.error.injEq _ _ ▸ h).symm
    · split at h
      · exact (Except.error.injEq _ _ ▸ h).symm
      · exact absurd h (by simp)

/-- Claim C6: a relative-duration string `<integer><unit>` with unit in
`{s, m, h, d, w}` parses to the integer times `{1, 60, 3600, 86400, 604800}`
respectively, and the `--last` window it resolves satisfies
`end - start = value`; a string with no digit characters, or whose
(normalized) unit is not one of the five, fails with `InvalidDuration`. -/
theorem parse_duration_spec :
    (∀ (ds : List Char) (u : Char) (m : Nat),
        ds ≠ [] → (∀ c ∈ ds, isDigitChar c = true) →
        (u, m) ∈ [('s', 1), ('m', 60), ('h', 3600), ('d', 86400), ('w', 604800)] →
        parse_duration (ds ++ [u]) = .ok ((digitsVal ds * m : Nat) : Int) ∧
        ∀ now : Int, ∃ w : Int × Int,
          resolveLast now (ds ++ [u]) = .ok w ∧
          w.2 - w.1 = ((digitsVal ds * m : Nat) : Int) ∧ w.2 = now) ∧
    (∀ raw : List Char,
        (raw.filter isDigitChar = [] ∨
          unitMult ((lowerChars (stripChars raw)).filter isAlphaChar) = none) →
        parse_duration raw = .error .invalidDuration) := by
  constructor
  · intro ds u m hne hd hu
    have hok : parse_duration (ds ++ [u]) = .ok ((digitsVal ds * m : Nat) : Int) := by
      simp only [List.mem_cons, List.not_mem_nil, or_false, Prod.mk.injEq] at hu
      rcases hu with ⟨rfl, rfl⟩ | ⟨rfl, rfl⟩ | ⟨rfl, rfl⟩ | ⟨rfl, rfl⟩ | ⟨rfl, rfl⟩ <;>
        exact parse_duration_ok_aux ds _ _ hne hd (by decide) (by decide)
          (by decide) (by decide) rfl
    refine ⟨hok, fun now => ⟨(now - ((digitsVal ds * m : Nat) : Int), now), ?_, by omega, rfl⟩⟩
    rw [resolveLast, hok]
    rfl
  · exact parse_duration_fails_aux

/-- Witness for C6 at `"24h"` (86400 seconds) and `"5x"` (invalid unit). -/
theorem parse_duration_spec_witness :
    parse_duration (['2', '4'] ++ ['h']) =
      .ok ((digitsVal ['2', '4'] * 3600 : Nat) : Int) ∧
    parse_duration ['5', 'x'] = .error .invalidDuration :=
  ⟨(parse_duration_spec.1 ['2', '4'] 'h' 3600 (by decide) (by decide)
      (by decide)).1,
    parse_duration_spec.2 ['5', 'x'] (Or.inr (by decide))⟩

/-! ### Window resolution and the report command (netusage.py lines 182-304)

External collaborators are abstracted into an `Env`: the OS clock
(`int(time.time())`, one logical instant per invocation), the counter reader
behind `insert_sample`, the `zoneinfo` database, `strptime`-based date
parsing (returning a canonical day index, `none` on unparsable input) and
`datetime.fromisoformat`.  The control flow of the Python functions is
embedded directly. -/

structure Env where
  now : Int
  freshRx : Int
  freshTx : Int
  zoneDB : String → Option Int
  localTz : Int
  parseDate : List Char → Option Int
  epochOfMidnight : Int → Int → Int
  isoParse : List Char → Option Int

/-- The row `insert_sample` appends (netusage.py lines 136-145):
`(int(time.time()), rx, tx)` from the counter reader. -/
def freshSample (env : Env) : Sample := ⟨env.now, env.freshRx, env.freshTx⟩

/-- The timezone resolution of `day_bounds` (netusage.py lines 183-191):
try `zoneinfo.ZoneInfo(tz)` when a non-empty `tz` is given, silently fall
back to the process-local timezone when the lookup raises or `tz` is
absent. -/
def tzResolve (env : Env) (tz : Option String) : Int :=
  match tz with
  | some z => if z.isEmpty then env.localTz else (env.zoneDB z).getD env.localTz
  | none => env.localTz

/-- Model of `day_bounds` (netusage.py lines 182-195): parse the date (`strptime`
raising maps to `InvalidDateTime`), return that date's midnight and the next
day's midnight in the resolved timezone. -/
def day_bounds (env : Env) (date : List Char) (tz : Option String) :
    Except RErr (Int × Int) :=
  match env.parseDate date with
  | none => .error .invalidDateTime
  | some d =>
      .ok (env.epochOfMidnight d (tzResolve env tz),
        env.epochOfMidnight (d + 1) (tzResolve env tz))

/-- Model of `parse_iso` (netusage.py lines 207-214): `datetime.fromisoformat`, with
failure reported as `InvalidDateTime` (`SystemExit` in the code). -/
def parse_iso (env : Env) (s : List Char) : Except RErr Int :=
  match env.isoParse s with
  | none => .error .invalidDateTime
  | some t => .ok t

/-- The `report` subcommand's argument record (argparse defaults: `None`
for the string options, `False` for the flags). -/
structure ReportArgs where
  day : Option String
  range_from : Option String
  range_to : Option String
  last : Option String
  since : Option String
  tz : Option String
  update : Bool
  hourly : Bool
deriving Repr

/-- Python truthiness of an optional string argument: `None` and `""` are
falsy. -/
def optTruthy : Option String → Bool
  | none => false
  | some s => !s.data.isEmpty

/-- Model of `picks = sum(bool(x) for x in [args.day, args.range_from and
args.range_to, args.last, args.since])` (netusage.py line 262). -/
def picks (a : ReportArgs) : Nat :=
  (if optTruthy a.day then 1 else 0) +
  (if optTruthy a.range_from && optTruthy a.range_to then 1 else 0) +
  (if optTruthy a.last then 1 else 0) +
  (if optTruthy a.since then 1 else 0)

/-- The bare-date test of the since branch (netusage.py line 269):
`'T' not in since_str and len(since_str) == 10`. -/
def sinceIsBare (s : List Char) : Bool := !(s.contains 'T') && s.length == 10

/-- The window start of the since branch (netusage.py lines 266-274):
a bare date resolves through `day_bounds` to that day's midnight, anything
else through `parse_iso`. -/
def sinceStart (env : Env) (a : ReportArgs) : Except RErr Int :=
  let s := stripChars ((a.since.getD "").data)
  if sinceIsBare s then (day_bounds env s a.tz).map fun p => p.1
  else parse_iso env s

/-- What a successful report prints: the resolved window, the totals, and
the hourly breakdown when requested. -/
structure ReportOut where
  window : Int × Int
  rx : Int
  tx : Int
  buckets : Option (List (Nat × Int × Int))
deriving Repr, DecidableEq

/-- Model of `cmd_report` (netusage.py lines 258-304): optionally insert a fresh
sample first (`--update`), then validate that exactly one selector was
supplied, then resolve the window of the active selector and run the
accrual engine over the (possibly updated) store.  The result carries the
final store alongside, since the fresh sample persists even when the
command then fails. -/
def cmd_report (env : Env) (a : ReportArgs) (store : List Sample) :
    List Sample × Except RErr ReportOut :=
  let store' := if a.update then store ++ [freshSample env] else store
  if picks a ≠ 1 then (store', .error .ambiguous)
  else if optTruthy a.since then
    match sinceStart env a with
    | .error e => (store', .error e)
    | .ok st =>
        let u := compute_usage_between store' st env.now
        (store', .ok ⟨(st, env.now), u.1, u.2, none⟩)
  else if optTruthy a.day then
    match day_bounds env ((a.day.getD "").data) a.tz with
    | .error e => (store', .error e)
    | .ok w =>
        let u := compute_usage_between store' w.1 w.2
        (store', .ok ⟨w, u.1, u.2,
          if a.hourly then some (hourly_buckets w.1 w.2 store') else none⟩)
  else if optTruthy a.range_from && optTruthy a.range_to then
    match parse_iso env ((a.range_from.getD "").data) with
    | .error e => (store', .error e)
    | .ok s =>
        match parse_iso env ((a.range_to.getD "").data) with
        | .error e => (store', .error e)
        | .ok e2 =>
            if e2 ≤ s then (store', .error .invalidRange)
            else
              let u := compute_usage_between store' s e2
              (store', .ok ⟨(s, e2), u.1, u.2, none⟩)
  else if optTruthy a.last then
    match resolveLast env.now ((a.last.getD "").data) with
    | .error e => (store', .error e)
    | .ok w =>
        let u := compute_usage_between store' w.1 w.2
        (store', .ok ⟨w, u.1, u.2, none⟩)
  else (store', .error .ambiguous)

theorem day_bounds_err (env : Env) (d : List Char) (tz : Option String)
    (e : RErr) (h : day_bounds env d tz = .error e) : e = .invalidDateTime := by
  unfold day_bounds at h
  cases hpd : env.parseDate d <;> simp [hpd] at h
  exact h.symm

theorem parse_iso_err (env : Env) (s : List Char) (e : RErr)
    (h : parse_iso env s = .error e) : e = .invalidDateTime := by
  unfold parse_iso at h
  cases hpd : env.isoParse s <;> simp [hpd] at h
  exact h.symm

theorem sinceStart_err (env : Env) (a : ReportArgs) (e : RErr)
    (h : sinceStart env a = .error e) : e = .invalidDateTime := by
  unfold sinceStart at h
  cases hb : sinceIsBare (stripChars ((a.since.getD "").data)) <;>
    simp [hb] at h
  · exact parse_iso_err _ _ _ h
  · cases hdb : day_bounds env (stripChars ((a.since.getD "").data)) a.tz <;>
      simp [hdb, Except.map] at h
    exact h ▸ day_bounds_err _ _ _ _ hdb

theorem resolveLast_err (now : Int) (raw : List Char) (e : RErr)
    (h : resolveLast now raw = .error e) : e = .invalidDuration := by
  unfold resolveLast at h
  cases hpd : parse_duration raw <;> simp [hpd, Except.map] at h
  exact h ▸ parse_duration_err _ _ hpd

/-- Claim C7: `cmd_report` fails with `AmbiguousSpecification` exactly when
the number of supplied selectors among `{day, (from and to), last, since}`
differs from one; with exactly one selector it never raises that error. -/
theorem report_selector_exclusivity (env : Env) (a : ReportArgs)
    (store : List Sample) :
    (picks a ≠ 1 → (cmd_report env a store).2 = .error .ambiguous) ∧
    (picks a = 1 → (cmd_report env a store).2 ≠ .error .ambiguous) := by
  constructor
  · intro h
    simp [cmd_report, h]
  · intro h
    have hnn : ¬(picks a ≠ 1) := fun hh => hh h
    cases hsince : optTruthy a.since with
    | true =>
        cases hs2 : sinceStart env a with
        | error e =>
            have he := sinceStart_err env a e hs2
            subst he
            simp [cmd_report, hnn, hsince, hs2]
        | ok st => simp [cmd_report, hnn, hsince, hs2]
    | false =>
      cases hday : optTruthy a.day with
      | true =>
          cases hdb : day_bounds env ((a.day.getD "").data) a.tz with
          | error e =>
              have he := day_bounds_err env _ a.tz e hdb
              subst he
              simp [cmd_report, hnn, hsince, hday, hdb]
          | ok w => simp [cmd_report, hnn, hsince, hday, hdb]
      | false =>
        cases hr : optTruthy a.range_from && optTruthy a.range_to with
        | true =>
            cases hp1 : parse_iso env ((a.range_from.getD "").data) with
            | error e =>
                have he := parse_iso_err env _ e hp1
                subst he
                simp [cmd_report, hnn, hsince, hday, hr, hp1]
            | ok s =>
                cases hp2 : parse_iso env ((a.range_to.getD "").data) with
                | error e =>
                    have he := parse_iso_err env _ e hp2
                    subst he
                    simp [cmd_report, hnn, hsince, hday, hr, hp1, hp2]
                | ok e2 =>
                    cases hcmp : decide (e2 ≤ s) with
                    | true =>
                        have : e2 ≤ s := of_decide_eq_true hcmp
                        simp [cmd_report, hnn, hsince, hday, hr, hp1, hp2, this]
                    | false =>
                        have : ¬ e2 ≤ s := of_decide_eq_false hcmp
                        simp [cmd_report, hnn, hsince, hday, hr, hp1, hp2, this]
        | false =>
          cases hlast : optTruthy a.last with
          | true =>
              cases hrl : resolveLast env.now ((a.last.getD "").data) with
              | error e =>
                  have he := resolveLast_err env.now _ e hrl
                  subst he
                  simp [cmd_report, hnn, hsince, hday, hr, hlast, hrl]
              | ok w => simp [cmd_report, hnn, hsince, hday, hr, hlast, hrl]
          | false =>
              exfalso
              simp [picks, hsince, hday, hr, hlast] at h

/-- A concrete environment for the witnesses: clock at 100, counter reader
returning `(5, 7)`, an empty zoneinfo database, every date parsing to day
index 0, midnights at `d * 86400 + tzOffset`, ISO strings parsing to 0. -/
def env0 : Env :=
  ⟨100, 5, 7, fun _ => none, 0, fun _ => some 0,
    fun d t => d * 86400 + t, fun _ => some 0⟩

/-- Witness for C7: zero selectors fail with `AmbiguousSpecification`. -/
theorem report_selector_exclusivity_witness :
    picks ⟨none, none, none, none, none, none, false, false⟩ ≠ 1 ∧
    (cmd_report env0 ⟨none, none, none, none, none, none, false, false⟩ []).2 =
      .error .ambiguous :=
  ⟨by decide,
    (report_selector_exclusivity env0
      ⟨none, none, none, none, none, none, false, false⟩ []).1 (by decide)⟩

/-- Claim C9: with `--update` set and an invalid selector combination, the
fresh sample is inserted anyway: the store is mutated even though the
invocation ends with the `AmbiguousSpecification` failure. -/
theorem update_inserts_before_ambiguous (env : Env) (a : ReportArgs)
    (store : List Sample) (hupd : a.update = true) (hpk : picks a ≠ 1) :
    cmd_report env a store = (store ++ [freshSample env], .error .ambiguous) := by
  simp [cmd_report, hupd, hpk]

/-- Witness for C9: `--update` with zero selectors still appends the fresh
sample. -/
theorem update_inserts_before_ambiguous_witness :
    (⟨none, none, none, none, none, none, true, false⟩ : ReportArgs).update
      = true ∧
    picks ⟨none, none, none, none, none, none, true, false⟩ ≠ 1 ∧
    cmd_report env0 ⟨none, none, none, none, none, none, true, false⟩ [] =
      ([freshSample env0], .error .ambiguous) := by
  refine ⟨rfl, by decide, ?_⟩
  have h := update_inserts_before_ambiguous env0
    ⟨none, none, none, none, none, none, true, false⟩ [] rfl (by decide)
  simpa using h

/-- The window the active selector of `cmd_report` resolves to, read off the
four branches (netusage.py lines 265-301): since gives `[since, now]`, day
gives `day_bounds`, range gives `[from, to]` after the `to <= from` check,
last gives `[now - duration, now]`. -/
def resolvedWindow (env : Env) (a : ReportArgs) : Except RErr (Int × Int) :=
  if optTruthy a.since then (sinceStart env a).map fun st => (st, env.now)
  else if optTruthy a.day then day_bounds env ((a.day.getD "").data) a.tz
  else if optTruthy a.range_from && optTruthy a.range_to then
    match parse_iso env ((a.range_from.getD "").data) with
    | .error e => .error e
    | .ok s =>
        match parse_iso env ((a.range_to.getD "").data) with
        | .error e => .error e
        | .ok e2 => if e2 ≤ s then .error .invalidRange else .ok (s, e2)
  else if optTruthy a.last then resolveLast env.now ((a.last.getD "").data)
  else .error .ambiguous

theorem cmd_report_fst (env : Env) (a : ReportArgs) (store : List Sample) :
    (cmd_report env a store).1 =
      if a.update then store ++ [freshSample env] else store := by
  simp only [cmd_report]
  repeat' split
  all_goals rfl

/-- A second concrete environment, whose clock (100000) lies after the end
of the modelled day `[0, 86400]`. -/
def env1 : Env :=
  ⟨100000, 5, 7, fun _ => none, 0, fun _ => some 0,
    fun d t => d * 86400 + t, fun _ => some 0⟩

/-- Counterexample to Claim C8 as stated: the claim quantifies over every
update-mode invocation whose resolved window start does not exceed the
current time, but for `--day <past day> --update` the fresh sample is taken
at the current time, which lies after the day's end, so the appended sample
is excluded by `BETWEEN` and is not part of the accrual input at all: the
report is computed from the empty row set. -/
theorem update_day_excludes_fresh_cex :
    picks ⟨some "2025-11-01", none, none, none, none, none, true, false⟩ = 1 ∧
    (⟨some "2025-11-01", none, none, none, none, none, true, false⟩ :
      ReportArgs).update = true ∧
    resolvedWindow env1
        ⟨some "2025-11-01", none, none, none, none, none, true, false⟩ =
      .ok (0, 86400) ∧
    (0 : Int) ≤ env1.now ∧
    (cmd_report env1
        ⟨some "2025-11-01", none, none, none, none, none, true, false⟩ []).1 =
      [freshSample env1] ∧
    inRange 0 86400 (freshSample env1) = false ∧
    filterRange [freshSample env1] 0 86400 = [] ∧
    (cmd_report env1
        ⟨some "2025-11-01", none, none, none, none, none, true, false⟩ []).2 =
      .ok ⟨(0, 86400), 0, 0, none⟩ :=
  ⟨by decide, rfl, rfl, by decide, rfl, by decide, rfl, rfl⟩

/-- Claim C8 (amended): in update-before-report mode, when the resolved
window start does not exceed the current time and the window end is not
before it (so the window contains the sampling instant — automatic for
`--since` and `--last`, whose end is the current time, and the condition the
counterexample shows is needed for `--day` and `--from`, `--to`), one fresh
sample is appended before totals are computed, its timestamp lies within the
resolved window, it is the final data point of the accrual input, and the
reported totals are computed over the updated store. -/
theorem update_report_includes_fresh (env : Env) (a : ReportArgs)
    (store : List Sample) (w : Int × Int)
    (hupd : a.update = true)
    (hpk : picks a = 1)
    (hw : resolvedWindow env a = .ok w)
    (hstart : w.1 ≤ env.now) (hend : env.now ≤ w.2) :
    (cmd_report env a store).1 = store ++ [freshSample env] ∧
    (freshSample env).ts = env.now ∧
    inRange w.1 w.2 (freshSample env) = true ∧
    (filterRange (store ++ [freshSample env]) w.1 w.2).getLast? =
      some (freshSample env) ∧
    ∃ b, (cmd_report env a store).2 =
      .ok ⟨w, (compute_usage_between (store ++ [freshSample env]) w.1 w.2).1,
        (compute_usage_between (store ++ [freshSample env]) w.1 w.2).2, b⟩ := by
  have hnn : ¬ picks a ≠ 1 := fun hh => hh hpk
  have hin : inRange w.1 w.2 (freshSample env) = true := by
    simp [inRange, freshSample]
    omega
  have hfst : (cmd_report env a store).1 = store ++ [freshSample env] := by
    rw [cmd_report_fst, hupd]
    simp
  have hlastp : (filterRange (store ++ [freshSample env]) w.1 w.2).getLast? =
      some (freshSample env) := by
    rw [filterRange, List.filter_append]
    have hf : [freshSample env].filter (inRange w.1 w.2) =
        [freshSample env] := by
      simp [hin]
    rw [hf]
    exact List.getLast?_concat _
  refine ⟨hfst, rfl, hin, hlastp, ?_⟩
  cases hsince : optTruthy a.since with
  | true =>
      rw [resolvedWindow] at hw
      simp only [hsince, if_true] at hw
      cases hs2 : sinceStart env a with
      | error e => rw [hs2] at hw; simp [Except.map] at hw
      | ok st =>
          rw [hs2] at hw
          simp only [Except.map, Except.ok.injEq] at hw
          subst hw
          exact ⟨none, by simp [cmd_report, hnn, hsince, hs2, hupd]⟩
  | false =>
    cases hday : optTruthy a.day with
    | true =>
        rw [resolvedWindow] at hw
        simp only [hsince, hday, if_true, Bool.false_eq_true, if_false] at hw
        refine ⟨if a.hourly then
          some (hourly_buckets w.1 w.2 (store ++ [freshSample env]))
          else none, ?_⟩
        simp [cmd_report, hnn, hsince, hday, hw, hupd]
    | false =>
      cases hr : optTruthy a.range_from && optTruthy a.range_to with
      | true =>
          rw [resolvedWindow] at hw
          simp only [hsince, hday, hr, if_true, Bool.false_eq_true,
            if_false] at hw
          cases hp1 : parse_iso env ((a.range_from.getD "").data) with
          | error e => rw [hp1] at hw; simp at hw
          | ok s =>
              cases hp2 : parse_iso env ((a.range_to.getD "").data) with
              | error e => rw [hp1, hp2] at hw; simp at hw
              | ok e2 =>
                  rw [hp1, hp2] at hw
                  by_cases hcmp : e2 ≤ s
                  · simp [hcmp] at hw
                  · simp only [hcmp, if_false, Except.ok.injEq] at hw
                    subst hw
                    exact ⟨none, by
                      simp [cmd_report, hnn, hsince, hday, hr, hp1, hp2,
                        hcmp, hupd]⟩
      | false =>
        cases hlast : optTruthy a.last with
        | true =>
            rw [resolvedWindow] at hw
            simp only [hsince, hday, hr, hlast, if_true, Bool.false_eq_true,
              if_false] at hw
            exact ⟨none, by
              simp [cmd_report, hnn, hsince, hday, hr, hlast, hw, hupd]⟩
        | false =>
            exfalso
            simp [picks, hsince, hday, hr, hlast] at hpk

/-- Witness for the amended C8: `--since "2025-11-01" --update` over the
empty store in the concrete environment, resolved window `[0, 100]` with the
clock at 100. -/
theorem update_report_includes_fresh_witness :
    resolvedWindow env0
        ⟨none, none, none, none, some "2025-11-01", none, true, false⟩ =
      .ok (0, 100) ∧
    (0 : Int) ≤ env0.now ∧ env0.now ≤ (100 : Int) ∧
    (cmd_report env0
        ⟨none, none, none, none, some "2025-11-01", none, true, false⟩ []).1 =
      [] ++ [freshSample env0] ∧
    (filterRange ([] ++ [freshSample env0]) 0 100).getLast? =
      some (freshSample env0) := by
  have h := update_report_includes_fresh env0
    ⟨none, none, none, none, some "2025-11-01", none, true, false⟩ [] (0, 100)
    rfl (by decide) rfl (by decide) (by decide)
  exact ⟨rfl, by decide, by decide, h.1, h.2.2.2.1⟩

/-- Claim C10: an unrecognized timezone name never makes `day_bounds` fail:
the lookup failure is swallowed and the local timezone is used, so the
result coincides with the no-timezone resolution, and the only possible
failure is the date itself not parsing. -/
theorem invalid_tz_silently_ignored (env : Env) (date : List Char) (z : String)
    (hz : env.zoneDB z = none) :
    day_bounds env date (some z) = day_bounds env date none ∧
    (env.parseDate date ≠ none → ∃ w, day_bounds env date (some z) = .ok w) := by
  have htz : tzResolve env (some z) = tzResolve env none := by
    show (if z.isEmpty then env.localTz else (env.zoneDB z).getD env.localTz) =
      env.localTz
    split <;> simp [hz]
  constructor
  · unfold day_bounds
    rw [htz]
  · intro hpd
    cases hd : env.parseDate date with
    | none => exact absurd hd hpd
    | some d =>
        exact ⟨(env.epochOfMidnight d (tzResolve env (some z)),
          env.epochOfMidnight (d + 1) (tzResolve env (some z))),
          by simp [day_bounds, hd]⟩

/-- Witness for C10: the unknown zone name `"Mars/Olympus"` in the concrete
environment resolves exactly like the absent timezone. -/
theorem invalid_tz_silently_ignored_witness :
    env0.zoneDB "Mars/Olympus" = none ∧
    day_bounds env0 ['2', '0', '2', '5'] (some "Mars/Olympus") =
      day_bounds env0 ['2', '0', '2', '5'] none :=
  ⟨rfl, (invalid_tz_silently_ignored env0 ['2', '0', '2', '5'] "Mars/Olympus"
    rfl).1⟩

end NetUsage
